import Mathlib

/-!
Verification of `ts-classes-to-api-documentation`.

The development shallowly embeds the two implementation files of the
repository:

* `src/ts-file-parser/index.ts` — the `TsFileParser` class, which extracts a
  `ClassDataMap` record for a class (title, description, constructor summary,
  and the public properties / get-accessors / methods merged along the
  base-class chain), memoised in a per-instance registry; and
* `src/md-writer/md-writer.ts` — the `MdWriter` class, which renders a class
  record to a fixed Markdown template and splices it between the literal
  `<!-- START CLASS API: … -->` / `<!-- END CLASS API: … -->` markers of a
  target document.

JavaScript objects used as string-keyed maps are embedded as association
lists (`List (String × _)`) with insertion at the end, matching the
insertion-order key enumeration of `Object.keys`; JS strings are embedded as
Lean `String`s with explicit character-list operations for `indexOf` and
`slice` (including the negative-index wrap-around of `slice`); `undefined`
for optional strings is `Option.none`, and the JS coercion `String(undefined)
= "undefined"` performed by template literals is made explicit.
-/

/-- `Scope` of a class member, as in the `ts-morph` `Scope` enum
(`public`, `protected`, `private`). -/
inductive Scope where
  | «public»
  | «protected»
  | «private»
deriving DecidableEq, Repr

/-- A constructor declaration of a class: its full text (`getText()`) and the
comment text of its first JSDoc block, when present
(`getJsDocs()?.[0]?.getCommentText()`). -/
structure CtorDecl where
  text : String
  docComment : Option String
deriving DecidableEq, Repr

/-- A property declaration, carrying the parts of `p.getStructure()` and of
the node that `propertiesReduceFn` reads: `name`, `type` (type text, absent
when undeclared), `scope`, `isStatic`, the full declaration text
(`p.getText()`) and the first JSDoc comment text. -/
structure PropertyDecl where
  name : String
  type : Option String
  scope : Option Scope
  isStatic : Bool
  text : String
  docComment : Option String
deriving DecidableEq, Repr

/-- A get-accessor declaration, with the parts of `g.getStructure()` and of
the node that `accessorsReduceFn` reads. -/
structure GetAccessorDecl where
  name : String
  returnType : Option String
  scope : Option Scope
  isStatic : Bool
  text : String
  docComment : Option String
deriving DecidableEq, Repr

/-- A method declaration, with the parts of `m.getStructure()` and of the
node that `methodsReduceFn` reads. -/
structure MethodDecl where
  name : String
  returnType : Option String
  scope : Option Scope
  isStatic : Bool
  text : String
  docComment : Option String
deriving DecidableEq, Repr

/-- The own declarations of one class node of the source tree: name, type
parameter texts, first JSDoc comment text, constructors, properties,
get-accessors and methods, in declaration order. -/
structure ClassNode where
  name : String
  typeParameters : List String
  docComment : Option String
  ctors : List CtorDecl
  properties : List PropertyDecl
  getAccessors : List GetAccessorDecl
  methods : List MethodDecl
deriving DecidableEq, Repr

/-- A class declaration together with its resolved base-class chain:
`ancestors` lists the classes reached by repeatedly following
`getBaseClass()`, nearest base first.  The source's recursion
`getPublicX(c) → getPublicX(c.getBaseClass())` is embedded as a fold along
`classChain` (the class followed by its ancestors). -/
structure ClassDecl where
  node : ClassNode
  ancestors : List ClassNode
deriving DecidableEq, Repr

/-- The base-class chain of a class, most-derived class first. -/
def classChain (c : ClassDecl) : List ClassNode :=
  c.node :: c.ancestors

/-- `PropertyMap` of `src/types/index.ts`: one stored property record.
The code always stores a `String` in `type` (falling back to `"unknown"`). -/
structure PropertyMap where
  title : String
  type : String
  isStatic : Bool
  description : Option String
deriving DecidableEq, Repr

/-- `AccessorMap` of `src/types/index.ts`: one stored accessor record. -/
structure AccessorMap where
  title : String
  returnType : String
  isStatic : Bool
  description : Option String
deriving DecidableEq, Repr

/-- `MethodMap` of `src/types/index.ts`: one stored method record. -/
structure MethodMap where
  title : String
  returnType : String
  isStatic : Bool
  description : Option String
deriving DecidableEq, Repr

/-- `PropertiesMap`: a JS object keyed by member name, embedded as an
association list in insertion order. -/
abbrev PropertiesMap := List (String × PropertyMap)

/-- `AccessorsMap`, embedded as an association list in insertion order. -/
abbrev AccessorsMap := List (String × AccessorMap)

/-- `MethodsMap`, embedded as an association list in insertion order. -/
abbrev MethodsMap := List (String × MethodMap)

/-- The constructor summary stored in `ClassDataMap.constructor`.  The TS
type declares `title : string`, but the stored value
`getConstructors()?.[0]?.getText()` is `undefined` for a class without a
constructor, so both fields are embedded as `Option String`. -/
structure ConstructorSummary where
  title : Option String
  description : Option String
deriving DecidableEq, Repr

/-- `ClassDataMap` of `src/types/index.ts`: the extracted record for one
class. -/
structure ClassDataMap where
  title : String
  description : Option String
  constructor : ConstructorSummary
  properties : PropertiesMap
  accessors : AccessorsMap
  methods : MethodsMap
deriving DecidableEq, Repr

/-- `ClassesDataMap`: the per-parser registry, a JS object keyed by class
name, embedded as an association list in insertion order. -/
abbrev ClassesDataMap := List (String × ClassDataMap)

/-- Key lookup in a JS object embedded as an association list: the value at
the first matching key, `none` when the key is absent. -/
def jsLookup {β : Type} (m : List (String × β)) (k : String) : Option β :=
  (m.find? (fun kv => kv.1 == k)).map (fun kv => kv.2)

/-- The scope test `scope === Scope.Public || !scope` of the three reduce
functions: the member's scope is `public` or unspecified (default public). -/
def isPublicScope (s : Option Scope) : Prop :=
  s = some Scope.public ∨ s = none

instance (s : Option Scope) : Decidable (isPublicScope s) := by
  unfold isPublicScope
  infer_instance

/-- The fallback `type ? String(type) : 'unknown'`: JS truthiness makes both
an absent type text and an empty type text fall back to `"unknown"`. -/
def orUnknown (t : Option String) : String :=
  match t with
  | some s => if s.isEmpty then "unknown" else s
  | none => "unknown"

/-- The record stored for a property by `propertiesReduceFn`. -/
def propRecordOf (p : PropertyDecl) : PropertyMap :=
  { title := p.text
    type := orUnknown p.type
    description := p.docComment
    isStatic := p.isStatic }

/-- The record stored for a get-accessor by `accessorsReduceFn`. -/
def accessorRecordOf (g : GetAccessorDecl) : AccessorMap :=
  { title := g.text
    returnType := orUnknown g.returnType
    description := g.docComment
    isStatic := g.isStatic }

/-- The record stored for a method by `methodsReduceFn`. -/
def methodRecordOf (m : MethodDecl) : MethodMap :=
  { title := m.text
    returnType := orUnknown m.returnType
    description := m.docComment
    isStatic := m.isStatic }

/-- `propertiesReduceFn`: insert the property under its name — only when the
name is not already a key (`!acc[name]`) and the scope is public or
unspecified. -/
def propertiesReduceFn (acc : PropertiesMap) (p : PropertyDecl) : PropertiesMap :=
  if jsLookup acc p.name = none ∧ isPublicScope p.scope then
    acc ++ [(p.name, propRecordOf p)]
  else
    acc

/-- `accessorsReduceFn`: insert the accessor under its name — only when the
name is not already a key and the scope is public or unspecified. -/
def accessorsReduceFn (acc : AccessorsMap) (g : GetAccessorDecl) : AccessorsMap :=
  if jsLookup acc g.name = none ∧ isPublicScope g.scope then
    acc ++ [(g.name, accessorRecordOf g)]
  else
    acc

/-- `methodsReduceFn`: insert the method under its name — only when the name
is not already a key and the scope is public or unspecified. -/
def methodsReduceFn (acc : MethodsMap) (m : MethodDecl) : MethodsMap :=
  if jsLookup acc m.name = none ∧ isPublicScope m.scope then
    acc ++ [(m.name, methodRecordOf m)]
  else
    acc

/-- `getPublicProperties`: reduce the class's own properties into the
accumulator, then recurse into the base class with the same accumulator;
embedded as a fold along the base-class chain. -/
def getPublicProperties (c : ClassDecl) (map : PropertiesMap) : PropertiesMap :=
  (classChain c).foldl (fun acc n => n.properties.foldl propertiesReduceFn acc) map

/-- `getPublicAccessors`, folded along the base-class chain. -/
def getPublicAccessors (c : ClassDecl) (map : AccessorsMap) : AccessorsMap :=
  (classChain c).foldl (fun acc n => n.getAccessors.foldl accessorsReduceFn acc) map

/-- `getPublicMethods`, folded along the base-class chain. -/
def getPublicMethods (c : ClassDecl) (map : MethodsMap) : MethodsMap :=
  (classChain c).foldl (fun acc n => n.methods.foldl methodsReduceFn acc) map

/-- `getTypedClassName`: the class name, suffixed with
`<P1, P2, …>` when the class declares type parameters (JS truthiness on
`typeParameters.length`). -/
def getTypedClassName (n : ClassNode) : String :=
  if n.typeParameters.length = 0 then
    n.name
  else
    n.name ++ "<" ++ String.intercalate ", " n.typeParameters ++ ">"

/-- The record built by `setClassData` for a located class declaration
(lines 48–58 of `src/ts-file-parser/index.ts`): title, own first JSDoc
comment, constructor summary from the first constructor (`undefined` fields
when there is none), and the three merged public member maps, each started
from the empty map (the source's `map = {}` default argument). -/
def resolveClassData (c : ClassDecl) : ClassDataMap :=
  { title := getTypedClassName c.node
    description := c.node.docComment
    constructor :=
      { title := c.node.ctors.head?.map CtorDecl.text
        description := c.node.ctors.head?.bind CtorDecl.docComment }
    properties := getPublicProperties c []
    accessors := getPublicAccessors c []
    methods := getPublicMethods c [] }

/-- `setClassData`: locate the class by exact name among the source file's
class declarations; throw `'className not found!'` when absent; otherwise
store the resolved record in the registry under the class's name.  The
source stores into `this.classesDataMap` and `getClassData` then re-reads
`this.classesDataMap[className]`; since the located class's name equals
`className`, returning the stored record alongside the updated registry is
the same observable behaviour. -/
def setClassData (tree : List ClassDecl) (reg : ClassesDataMap) (className : String) :
    Except String (ClassDataMap × ClassesDataMap) :=
  match tree.find? (fun c => c.node.name == className) with
  | none => .error "className not found!"
  | some c =>
    let d := resolveClassData c
    .ok (d, reg ++ [(c.node.name, d)])

/-- `getClassData`: return the memoised record when present, otherwise
resolve, store and return it.  The guard `!this.classesDataMap[className]`
is a JS falsiness test; stored records are objects, hence always truthy, so
it is a presence test. -/
def getClassData (tree : List ClassDecl) (reg : ClassesDataMap) (className : String) :
    Except String (ClassDataMap × ClassesDataMap) :=
  match jsLookup reg className with
  | some v => .ok (v, reg)
  | none => setClassData tree reg className

/-- `getClassData` instrumented with a resolution counter (the spec's
"call-count instrumentation on the parsing collaborator"): the returned
`Nat` is the number of `setClassData` resolutions performed by the call —
`0` on a registry hit, `1` otherwise. -/
def getClassDataCounting (tree : List ClassDecl) (reg : ClassesDataMap) (className : String) :
    Except String (ClassDataMap × ClassesDataMap × Nat) :=
  match jsLookup reg className with
  | some v => .ok (v, reg, 0)
  | none =>
    match setClassData tree reg className with
    | .error e => .error e
    | .ok (v, reg2) => .ok (v, reg2, 1)

/-- Case-insensitive lexicographic comparison of character lists: the `≤` of
the lexicographic order induced by the character order. -/
def charListLe : List Char → List Char → Bool
  | [], _ => true
  | _ :: _, [] => false
  | a :: as, b :: bs => if a = b then charListLe as bs else decide (a < b)

/-- Modelled from the external `Intl` collaborator: the comparator
`a.localeCompare(b, 'en', { sensitivity: 'base' }) ≤ 0` used by `printMap`
to sort member names, embedded as case-insensitive (lower-cased)
lexicographic string comparison. -/
def localeLe (a b : String) : Bool :=
  charListLe (a.data.map Char.toLower) (b.data.map Char.toLower)

/-- The sorting relation of `printMap`'s key sort, as a `Prop` relation. -/
def localeBaseLe (a b : String) : Prop :=
  localeLe a b = true

instance (a b : String) : Decidable (localeBaseLe a b) := by
  unfold localeBaseLe
  infer_instance

/-- The JS string coercion performed by a template literal on a possibly
`undefined` value: `String(undefined) = "undefined"`. -/
def jsStringOf (o : Option String) : String :=
  match o with
  | some s => s
  | none => "undefined"

/-- `printH3`: `### {label}` followed by a line break. -/
def printH3 (label : String) : String :=
  "### " ++ label ++ "\n"

/-- `printH4`: `#### {label}` followed by a line break. -/
def printH4 (label : String) : String :=
  "#### " ++ label ++ "\n"

/-- `printDescription`: `description ? description + '\n' : '\n'` — JS
truthiness makes both an absent and an empty description render as a single
blank line. -/
def printDescription (description : Option String) : String :=
  match description with
  | some s => if s.isEmpty then "\n" else s ++ "\n"
  | none => "\n"

/-- `printListItem`: the list-line template `- \x60{title}\x60: {description}`
followed by a line break.  The TS parameter `title` is declared `string`,
but the constructor call site passes `undefined` at runtime for a class
without a constructor, so both parameters are embedded as `Option String`
and interpolated through the JS template-literal coercion. -/
def printListItem (title : Option String) (description : Option String) : String :=
  "- `" ++ jsStringOf title ++ "`: " ++ jsStringOf description ++ "\n"

/-- The structural view `{ title, description }` that `printMap` reads from
a `PropertyMap | AccessorMap | MethodMap` union member. -/
class MemberLike (α : Type) where
  title : α → String
  description : α → Option String

instance : MemberLike PropertyMap where
  title := PropertyMap.title
  description := PropertyMap.description

instance : MemberLike AccessorMap where
  title := AccessorMap.title
  description := AccessorMap.description

instance : MemberLike MethodMap where
  title := MethodMap.title
  description := MethodMap.description

/-- The function mapped over the sorted key list by `printMap`:
`key => printListItem(properties[key].title, properties[key].description)`.
The `properties[key]` access always hits for a key drawn from
`Object.keys(properties)`, so the `none` branch is unreachable. -/
def memberLine {α : Type} [MemberLike α] (properties : List (String × α)) (key : String) :
    String :=
  match jsLookup properties key with
  | some v => printListItem (some (MemberLike.title v)) (MemberLike.description v)
  | none => ""

/-- `printMap`: when the key list is non-empty (JS truthiness on
`keyList.length`), emit the `H4` heading, then one list line per key with
the keys sorted by the locale comparator (`Array.prototype.sort` is stable;
it is embedded as a stable insertion sort), then a final line break;
otherwise a single line break. -/
def printMap {α : Type} [MemberLike α] (title : String) (properties : List (String × α)) :
    String :=
  let keyList : List String := properties.map Prod.fst
  if keyList.length = 0 then
    "\n"
  else
    printH4 title ++
      String.join ((keyList.insertionSort localeBaseLe).map (memberLine properties)) ++ "\n"

/-- `getApiClassContent`, rendering one `ClassDataMap` through the fixed
template (the source method takes a class name and calls
`this.tsFileParser.getClassData`; the registry threading of that call is
made explicit at the `writeApiClassContent` call site). -/
def getApiClassContent (classData : ClassDataMap) : String :=
  "" ++
    printH3 classData.title ++
    printDescription classData.description ++
    printH4 "Constructor" ++
    printListItem classData.constructor.title classData.constructor.description ++
    printMap "Properties" classData.properties ++
    printMap "Accessors" classData.accessors ++
    printMap "Methods" classData.methods

/-- The literal start marker `<!-- START CLASS API: {className} -->`. -/
def startCommentFor (className : String) : String :=
  "<!-- START CLASS API: " ++ className ++ " -->"

/-- The literal end marker `<!-- END CLASS API: {className} -->`. -/
def endCommentFor (className : String) : String :=
  "<!-- END CLASS API: " ++ className ++ " -->"

/-- First index at which `pat` occurs as a contiguous run of `s`; `none`
when it does not occur. -/
def firstInfixIdx : List Char → List Char → Option Nat
  | s, pat =>
    match s with
    | [] => if pat.isEmpty then some 0 else none
    | _ :: tl => if pat.isPrefixOf s then some 0 else (firstInfixIdx tl pat).map (· + 1)

/-- `String.prototype.indexOf`: the first occurrence index, `-1` when the
pattern does not occur. -/
def jsIndexOf (s pat : String) : Int :=
  match firstInfixIdx s.data pat.data with
  | some n => (n : Int)
  | none => -1

/-- `String.prototype.slice(a, b)`: character range with negative indices
counting from the end and both endpoints clamped to the string. -/
def jsSlice (s : String) (a b : Int) : String :=
  let len : Int := (s.data.length : Int)
  let a' : Nat := (if a < 0 then max (len + a) 0 else min a len).toNat
  let b' : Nat := (if b < 0 then max (len + b) 0 else min b len).toNat
  String.mk ((s.data.take b').drop a')

/-- `String.prototype.slice(a)` with one argument: from `a` (negative `a`
counting from the end) to the end of the string. -/
def jsSliceFrom (s : String) (a : Int) : String :=
  let len : Int := (s.data.length : Int)
  let a' : Nat := (if a < 0 then max (len + a) 0 else min a len).toNat
  String.mk (s.data.drop a')

/-- `writeApiClassContent` of `MdWriter`, on the document text read from the
Markdown file.  The result is `.error _` when `getClassData` throws,
`.ok (some newText, reg')` when the marker check passes and `newText` is
written back to the file, and `.ok (none, reg)` for the branch that only
logs that the comments were not found and leaves the file untouched.  Note
the source computes `endIndex` as `data.indexOf(endComment) +
endComment.length` *before* comparing against `-1`. -/
def writeApiClassContent (tree : List ClassDecl) (reg : ClassesDataMap)
    (data : String) (className : String) :
    Except String (Option String × ClassesDataMap) :=
  let startComment := startCommentFor className
  let endComment := endCommentFor className
  let startIndex : Int := jsIndexOf data startComment
  let endIndex : Int := jsIndexOf data endComment + (endComment.length : Int)
  if startIndex ≠ -1 ∧ endIndex ≠ -1 then
    match getClassData tree reg className with
    | .error e => .error e
    | .ok (classData, reg') =>
      let updatedContent :=
        jsSlice data 0 (startIndex + (startComment.length : Int)) ++
        "\n" ++
        getApiClassContent classData ++
        jsSliceFrom data (endIndex - (endComment.length : Int))
      .ok (some updatedContent, reg')
  else
    .ok (none, reg)

/-! ### Association-list lookup lemmas -/

theorem jsLookup_nil {β : Type} (k : String) :
    jsLookup ([] : List (String × β)) k = none := rfl

theorem jsLookup_cons {β : Type} (kv : String × β) (tl : List (String × β)) (k : String) :
    jsLookup (kv :: tl) k = if kv.1 = k then some kv.2 else jsLookup tl k := by
  by_cases h : kv.1 = k <;> simp [jsLookup, List.find?_cons, h]

theorem jsLookup_append {β : Type} (xs ys : List (String × β)) (k : String) :
    jsLookup (xs ++ ys) k = (jsLookup xs k).or (jsLookup ys k) := by
  unfold jsLookup
  rw [List.find?_append]
  cases List.find? (fun kv => kv.1 == k) xs <;> simp [Option.or]

theorem jsLookup_singleton {β : Type} (k k' : String) (v : β) :
    jsLookup [(k, v)] k' = if k = k' then some v else none := by
  by_cases h : k = k' <;> simp [jsLookup, List.find?_cons, h]

theorem jsLookup_eq_none_iff {β : Type} (m : List (String × β)) (k : String) :
    jsLookup m k = none ↔ k ∉ m.map Prod.fst := by
  induction m with
  | nil => simp [jsLookup]
  | cons kv tl ih =>
    rw [jsLookup_cons]
    by_cases h : kv.1 = k
    · simp [h]
    · simp [h, ih, Ne.symm h]

theorem jsLookup_some_mem_keys {β : Type} {m : List (String × β)} {k : String} {v : β}
    (h : jsLookup m k = some v) : k ∈ m.map Prod.fst := by
  by_contra hk
  rw [← jsLookup_eq_none_iff] at hk
  rw [hk] at h
  exact Option.noConfusion h

/-! ### Generic lemmas about the insert-if-absent reduce functions

The three reduce functions of the extractor share one shape: insert the
record under the member's name when the name is not yet a key and the scope
test passes.  The lemmas below are stated for any step function of that
shape and instantiated three times. -/

theorem foldl_insert_lookup {α β : Type} [DecidableEq β]
    (f : List (String × β) → α → List (String × β))
    (key : α → String) (P : α → Prop) [DecidablePred P] (rec : α → β)
    (hf : ∀ acc x, f acc x =
      if jsLookup acc (key x) = none ∧ P x then acc ++ [(key x, rec x)] else acc) :
    ∀ (ps : List α) (acc : List (String × β)) (nm : String),
      jsLookup (ps.foldl f acc) nm =
        (jsLookup acc nm).or
          ((ps.find? (fun p => key p == nm && decide (P p))).map rec) := by
  intro ps
  induction ps with
  | nil =>
    intro acc nm
    simp [Option.or_none]
  | cons p tl ih =>
    intro acc nm
    rw [List.foldl_cons, hf, ih]
    by_cases hP : P p
    · by_cases hl : jsLookup acc (key p) = none
      · rw [if_pos ⟨hl, hP⟩, jsLookup_append, jsLookup_singleton]
        by_cases hk : key p = nm
        · have hacc : jsLookup acc nm = none := hk ▸ hl
          simp [hacc, List.find?_cons, hk, hP, Option.or]
        · simp [List.find?_cons, hk]
      · rw [if_neg (fun hc => hl hc.1)]
        by_cases hk : key p = nm
        · rcases Option.ne_none_iff_exists'.mp hl with ⟨v, hv⟩
          have hacc : jsLookup acc nm = some v := hk ▸ hv
          simp [hacc, Option.or]
        · simp [List.find?_cons, hk]
    · rw [if_neg (fun hc => hP hc.2)]
      simp [List.find?_cons, hP]

theorem foldl_insert_nodup_keys {α β : Type} [DecidableEq β]
    (f : List (String × β) → α → List (String × β))
    (key : α → String) (P : α → Prop) [DecidablePred P] (rec : α → β)
    (hf : ∀ acc x, f acc x =
      if jsLookup acc (key x) = none ∧ P x then acc ++ [(key x, rec x)] else acc) :
    ∀ (ps : List α) (acc : List (String × β)),
      (acc.map Prod.fst).Nodup → ((ps.foldl f acc).map Prod.fst).Nodup := by
  intro ps
  induction ps with
  | nil =>
    intro acc h
    simpa using h
  | cons p tl ih =>
    intro acc h
    rw [List.foldl_cons, hf]
    by_cases hc : jsLookup acc (key p) = none ∧ P p
    · rw [if_pos hc]
      refine ih _ ?_
      rw [List.map_append]
      refine List.Nodup.append h (by simp) ?_
      intro a ha hb
      simp at hb
      subst hb
      exact (jsLookup_eq_none_iff acc (key p)).mp hc.1 ha
    · rw [if_neg hc]
      exact ih _ h

theorem foldl_insert_mem {α β : Type} [DecidableEq β]
    (f : List (String × β) → α → List (String × β))
    (key : α → String) (P : α → Prop) [DecidablePred P] (rec : α → β)
    (hf : ∀ acc x, f acc x =
      if jsLookup acc (key x) = none ∧ P x then acc ++ [(key x, rec x)] else acc) :
    ∀ (ps : List α) (acc : List (String × β)) (kv : String × β),
      kv ∈ ps.foldl f acc →
        kv ∈ acc ∨ ∃ x ∈ ps, key x = kv.1 ∧ rec x = kv.2 ∧ P x := by
  intro ps
  induction ps with
  | nil =>
    intro acc kv h
    exact Or.inl (by simpa using h)
  | cons p tl ih =>
    intro acc kv h
    rw [List.foldl_cons, hf] at h
    rcases ih _ _ h with hacc | ⟨x, hx, hxk⟩
    · by_cases hc : jsLookup acc (key p) = none ∧ P p
      · rw [if_pos hc] at hacc
        rcases List.mem_append.mp hacc with h1 | h2
        · exact Or.inl h1
        · simp at h2
          subst h2
          exact Or.inr ⟨p, List.mem_cons_self p tl, rfl, rfl, hc.2⟩
      · rw [if_neg hc] at hacc
        exact Or.inl hacc
    · exact Or.inr ⟨x, List.mem_cons_of_mem p hx, hxk⟩

theorem foldl_nodes_flatMap {α β γ : Type}
    (f : List (String × β) → α → List (String × β)) (g : γ → List α) :
    ∀ (ns : List γ) (acc : List (String × β)),
      ns.foldl (fun m n => (g n).foldl f m) acc = ((ns.flatMap g).foldl f acc) := by
  intro ns
  induction ns with
  | nil => intro acc; simp
  | cons n tl ih =>
    intro acc
    rw [List.foldl_cons, List.flatMap_cons, List.foldl_append, ih]

theorem getPublicProperties_eq_foldl (c : ClassDecl) (map : PropertiesMap) :
    getPublicProperties c map =
      ((classChain c).flatMap ClassNode.properties).foldl propertiesReduceFn map :=
  foldl_nodes_flatMap propertiesReduceFn ClassNode.properties (classChain c) map

theorem getPublicAccessors_eq_foldl (c : ClassDecl) (map : AccessorsMap) :
    getPublicAccessors c map =
      ((classChain c).flatMap ClassNode.getAccessors).foldl accessorsReduceFn map :=
  foldl_nodes_flatMap accessorsReduceFn ClassNode.getAccessors (classChain c) map

theorem getPublicMethods_eq_foldl (c : ClassDecl) (map : MethodsMap) :
    getPublicMethods c map =
      ((classChain c).flatMap ClassNode.methods).foldl methodsReduceFn map :=
  foldl_nodes_flatMap methodsReduceFn ClassNode.methods (classChain c) map

theorem propertiesReduceFn_shape (acc : PropertiesMap) (p : PropertyDecl) :
    propertiesReduceFn acc p =
      if jsLookup acc p.name = none ∧ isPublicScope p.scope then
        acc ++ [(p.name, propRecordOf p)]
      else acc := rfl

theorem accessorsReduceFn_shape (acc : AccessorsMap) (g : GetAccessorDecl) :
    accessorsReduceFn acc g =
      if jsLookup acc g.name = none ∧ isPublicScope g.scope then
        acc ++ [(g.name, accessorRecordOf g)]
      else acc := rfl

theorem methodsReduceFn_shape (acc : MethodsMap) (m : MethodDecl) :
    methodsReduceFn acc m =
      if jsLookup acc m.name = none ∧ isPublicScope m.scope then
        acc ++ [(m.name, methodRecordOf m)]
      else acc := rfl

/-! ### The locale comparator is a total preorder -/

theorem charListLe_total : ∀ a b : List Char, charListLe a b = true ∨ charListLe b a = true := by
  intro a
  induction a with
  | nil => intro b; left; cases b <;> rfl
  | cons x xs ih =>
    intro b
    cases b with
    | nil => right; rfl
    | cons y ys =>
      by_cases h : x = y
      · subst h
        rcases ih ys with h1 | h1
        · left; simpa [charListLe] using h1
        · right; simpa [charListLe] using h1
      · rcases lt_or_gt_of_ne h with hlt | hgt
        · left; simp [charListLe, h, hlt]
        · right; simp [charListLe, Ne.symm h, hgt]

theorem charListLe_trans :
    ∀ a b c : List Char, charListLe a b = true → charListLe b c = true →
      charListLe a c = true := by
  intro a
  induction a with
  | nil => intro b c _ _; cases c <;> rfl
  | cons x xs ih =>
    intro b c hab hbc
    cases b with
    | nil => simp [charListLe] at hab
    | cons y ys =>
      cases c with
      | nil => simp [charListLe] at hbc
      | cons z zs =>
        by_cases hxy : x = y <;> by_cases hyz : y = z
        · subst hxy; subst hyz
          simp [charListLe] at hab hbc ⊢
          exact ih ys zs hab hbc
        · subst hxy
          simp [charListLe, hyz] at hbc ⊢
          simp [hyz, hbc]
        · subst hyz
          simp [charListLe, hxy] at hab ⊢
          simp [hxy, hab]
        · simp [charListLe, hxy, hyz] at hab hbc
          have hxz : x < z := lt_trans hab hbc
          simp [charListLe, ne_of_lt hxz, hxz]

instance : IsTrans String localeBaseLe where
  trans := fun a b c hab hbc =>
    charListLe_trans (a.data.map Char.toLower) (b.data.map Char.toLower)
      (c.data.map Char.toLower) hab hbc

instance : IsTotal String localeBaseLe where
  total := fun a b =>
    charListLe_total (a.data.map Char.toLower) (b.data.map Char.toLower)

/-! ### String splicing lemmas -/

theorem strMk_append (a b : List Char) : String.mk a ++ String.mk b = String.mk (a ++ b) := rfl

theorem strMk_data (s : String) : String.mk s.data = s := rfl

theorem firstInfixIdx_some :
    ∀ (s pat : List Char) (i : Nat), firstInfixIdx s pat = some i →
      ∃ pre post, s = pre ++ pat ++ post ∧ pre.length = i := by
  intro s
  induction s with
  | nil =>
    intro pat i h
    unfold firstInfixIdx at h
    by_cases hp : pat.isEmpty
    · rw [if_pos hp] at h
      cases h
      rcases List.isEmpty_iff.mp hp with rfl
      exact ⟨[], [], rfl, rfl⟩
    · rw [if_neg hp] at h
      exact Option.noConfusion h
  | cons hd tl ih =>
    intro pat i h
    rw [firstInfixIdx] at h
    by_cases hp : pat.isPrefixOf (hd :: tl)
    · rw [if_pos hp] at h
      cases h
      rcases List.isPrefixOf_iff_prefix.mp hp with ⟨post, hpost⟩
      exact ⟨[], post, hpost.symm, rfl⟩
    · rw [if_neg hp] at h
      rcases Option.map_eq_some'.mp h with ⟨i', hi', rfl⟩
      rcases ih pat i' hi' with ⟨pre, post, hs, hlen⟩
      exact ⟨hd :: pre, post, by rw [hs]; rfl, by simp [hlen]⟩

theorem jsSlice_zero_nat (s : String) (n : Nat) :
    jsSlice s 0 (n : Int) = String.mk (s.data.take n) := by
  simp only [jsSlice]
  have ha : ((if (0:Int) < 0 then ((s.data.length : Int) + 0) ⊔ 0 else (0:Int) ⊓ (s.data.length : Int)).toNat) = 0 := by
    rw [if_neg (by omega)]
    omega
  rcases le_total n s.data.length with hle | hle
  · have hb : ((if (n:Int) < 0 then ((s.data.length : Int) + (n:Int)) ⊔ 0 else (n:Int) ⊓ (s.data.length : Int)).toNat) = n := by
      rw [if_neg (by omega)]
      omega
    rw [ha, hb, List.drop_zero]
  · have hb : ((if (n:Int) < 0 then ((s.data.length : Int) + (n:Int)) ⊔ 0 else (n:Int) ⊓ (s.data.length : Int)).toNat) = s.data.length := by
      rw [if_neg (by omega)]
      omega
    rw [ha, hb, List.drop_zero, List.take_length, List.take_of_length_le hle]

theorem jsSliceFrom_nat (s : String) (n : Nat) :
    jsSliceFrom s (n : Int) = String.mk (s.data.drop n) := by
  simp only [jsSliceFrom]
  rcases le_total n s.data.length with hle | hle
  · have ha : ((if (n:Int) < 0 then ((s.data.length : Int) + (n:Int)) ⊔ 0 else (n:Int) ⊓ (s.data.length : Int)).toNat) = n := by
      rw [if_neg (by omega)]
      omega
    rw [ha]
  · have ha : ((if (n:Int) < 0 then ((s.data.length : Int) + (n:Int)) ⊔ 0 else (n:Int) ⊓ (s.data.length : Int)).toNat) = s.data.length := by
      rw [if_neg (by omega)]
      omega
    rw [ha, List.drop_length, List.drop_of_length_le hle]

theorem strAppend_assoc (a b c : String) : a ++ b ++ c = a ++ (b ++ c) := by
  cases a with
  | mk xa =>
    cases b with
    | mk xb =>
      cases c with
      | mk xc =>
        show String.mk (xa ++ xb ++ xc) = String.mk (xa ++ (xb ++ xc))
        rw [List.append_assoc]

/-! ### Claim theorems -/

/-- C2 (counterexample): a property whose description is absent does *not*
render as the backtick-quoted title followed by the bare separator; the
rendered line carries the literal text `undefined` after the separator
(the JS template literal stringifies `undefined`). -/
theorem c2_absent_description_counterexample :
    printMap "Properties"
        [("x", ({ title := "x", type := "unknown", isStatic := false,
                  description := none } : PropertyMap))] =
      "#### Properties\n- `x`: undefined\n\n" ∧
    printMap "Properties"
        [("x", ({ title := "x", type := "unknown", isStatic := false,
                  description := none } : PropertyMap))] ≠
      "#### Properties\n- `x`: \n\n" := by
  constructor
  · rfl
  · decide

/-- C2 (amended): for every member whose description is absent, the rendered
list line is the backtick-quoted member title, the literal separator, and
then the literal string `undefined` — not nothing. -/
theorem c2_absent_description_renders_undefined (t : String) :
    printListItem (some t) none = "- `" ++ t ++ "`: undefined\n" := by
  show "- `" ++ t ++ "`: " ++ "undefined" ++ "\n" = "- `" ++ t ++ "`: undefined\n"
  rw [strAppend_assoc ("- `" ++ t) "`: " "undefined",
    strAppend_assoc ("- `" ++ t) ("`: " ++ "undefined") "\n"]
  have h : ("`: " ++ "undefined" : String) ++ "\n" = "`: undefined\n" := by decide
  rw [h]

/-- C10: for every class that declares no constructor, the rendered fragment
contains the Constructor list line with both the absent title and the absent
description interpolated as the literal string `undefined`. -/
theorem c10_no_constructor_renders_undefined_line (c : ClassDecl)
    (h : c.node.ctors = []) :
    ∃ pre post,
      getApiClassContent (resolveClassData c) =
        pre ++ "- `undefined`: undefined\n" ++ post := by
  refine ⟨"" ++ printH3 (resolveClassData c).title ++
      printDescription (resolveClassData c).description ++ printH4 "Constructor",
    printMap "Properties" (resolveClassData c).properties ++
      printMap "Accessors" (resolveClassData c).accessors ++
      printMap "Methods" (resolveClassData c).methods, ?_⟩
  have ht : (resolveClassData c).constructor.title = none := by
    simp [resolveClassData, h]
  have hd : (resolveClassData c).constructor.description = none := by
    simp [resolveClassData, h]
  show "" ++ printH3 (resolveClassData c).title ++
      printDescription (resolveClassData c).description ++ printH4 "Constructor" ++
      printListItem (resolveClassData c).constructor.title
        (resolveClassData c).constructor.description ++
      printMap "Properties" (resolveClassData c).properties ++
      printMap "Accessors" (resolveClassData c).accessors ++
      printMap "Methods" (resolveClassData c).methods = _
  rw [ht, hd]
  have hL : printListItem none none = "- `undefined`: undefined\n" := rfl
  rw [hL]
  rw [strAppend_assoc _ (printMap "Properties" (resolveClassData c).properties)
      (printMap "Accessors" (resolveClassData c).accessors),
    strAppend_assoc _ _ (printMap "Methods" (resolveClassData c).methods),
    strAppend_assoc _ "- `undefined`: undefined\n" _]

/-- Witness for C10 at a concrete constructor-less class. -/
def classA : ClassDecl :=
  { node := { name := "A", typeParameters := [], docComment := none,
              ctors := [], properties := [], getAccessors := [], methods := [] },
    ancestors := [] }

theorem c10_witness :
    ∃ pre post,
      getApiClassContent (resolveClassData classA) =
        pre ++ "- `undefined`: undefined\n" ++ post :=
  c10_no_constructor_renders_undefined_line classA rfl

/-- C7: for every member map, the rendered section is a single blank line
with no heading when the map is empty; when it is non-empty it is the
section heading, one list line per member with the keys in an order sorted
by the case-insensitive locale comparator, and a trailing blank line. -/
theorem c7_printMap_sections {α : Type} [MemberLike α] (t : String)
    (m : List (String × α)) :
    (m = [] → printMap t m = "\n") ∧
    (m ≠ [] → ∃ ks : List String,
      ks.Perm (m.map Prod.fst) ∧
      List.Sorted localeBaseLe ks ∧
      printMap t m =
        printH4 t ++ String.join (ks.map (memberLine m)) ++ "\n") := by
  constructor
  · rintro rfl
    rfl
  · intro hm
    refine ⟨(m.map Prod.fst).insertionSort localeBaseLe,
      List.perm_insertionSort _ _, List.sorted_insertionSort _ _, ?_⟩
    have hlen : ¬((m.map Prod.fst).length = 0) := by
      simpa using hm
    simp only [printMap]
    rw [if_neg hlen]

/-- Witness members and maps for C7. -/
def w7a : PropertyMap :=
  { title := "a: number;", type := "number", isStatic := false, description := some "a doc" }

def w7b : PropertyMap :=
  { title := "B: string;", type := "string", isStatic := false, description := none }

def w7map : PropertiesMap := [("B", w7b), ("a", w7a)]

theorem c7_witness :
    (printMap "Properties" ([] : PropertiesMap) = "\n") ∧
    (∃ ks : List String,
      ks.Perm (w7map.map Prod.fst) ∧
      List.Sorted localeBaseLe ks ∧
      printMap "Properties" w7map =
        printH4 "Properties" ++ String.join (ks.map (memberLine w7map)) ++ "\n") :=
  ⟨(c7_printMap_sections "Properties" ([] : PropertiesMap)).1 rfl,
   (c7_printMap_sections "Properties" w7map).2 (by decide)⟩

/-- C8: every entry of the merged properties, accessors and methods maps of
a class originates from a declaration somewhere on the base-class chain
whose scope is public or unspecified; members with non-public scope are
never inserted. -/
theorem c8_only_public_members (c : ClassDecl) :
    (∀ k v, (k, v) ∈ getPublicProperties c [] →
      ∃ n ∈ classChain c, ∃ p ∈ n.properties,
        p.name = k ∧ propRecordOf p = v ∧ isPublicScope p.scope) ∧
    (∀ k v, (k, v) ∈ getPublicAccessors c [] →
      ∃ n ∈ classChain c, ∃ g ∈ n.getAccessors,
        g.name = k ∧ accessorRecordOf g = v ∧ isPublicScope g.scope) ∧
    (∀ k v, (k, v) ∈ getPublicMethods c [] →
      ∃ n ∈ classChain c, ∃ mm ∈ n.methods,
        mm.name = k ∧ methodRecordOf mm = v ∧ isPublicScope mm.scope) := by
  refine ⟨?_, ?_, ?_⟩
  · intro k v h
    rw [getPublicProperties_eq_foldl] at h
    rcases foldl_insert_mem propertiesReduceFn PropertyDecl.name
        (fun p => isPublicScope p.scope) propRecordOf propertiesReduceFn_shape
        _ _ _ h with h0 | ⟨x, hx, h1, h2, h3⟩
    · exact absurd h0 (List.not_mem_nil _)
    · rcases List.mem_flatMap.mp hx with ⟨n, hn, hxn⟩
      exact ⟨n, hn, x, hxn, h1, h2, h3⟩
  · intro k v h
    rw [getPublicAccessors_eq_foldl] at h
    rcases foldl_insert_mem accessorsReduceFn GetAccessorDecl.name
        (fun g => isPublicScope g.scope) accessorRecordOf accessorsReduceFn_shape
        _ _ _ h with h0 | ⟨x, hx, h1, h2, h3⟩
    · exact absurd h0 (List.not_mem_nil _)
    · rcases List.mem_flatMap.mp hx with ⟨n, hn, hxn⟩
      exact ⟨n, hn, x, hxn, h1, h2, h3⟩
  · intro k v h
    rw [getPublicMethods_eq_foldl] at h
    rcases foldl_insert_mem methodsReduceFn MethodDecl.name
        (fun mm => isPublicScope mm.scope) methodRecordOf methodsReduceFn_shape
        _ _ _ h with h0 | ⟨x, hx, h1, h2, h3⟩
    · exact absurd h0 (List.not_mem_nil _)
    · rcases List.mem_flatMap.mp hx with ⟨n, hn, hxn⟩
      exact ⟨n, hn, x, hxn, h1, h2, h3⟩

/-- Witness declarations for C8: a class with one public and one private
member of each kind. -/
def w8P : PropertyDecl :=
  ⟨"x", some "number", none, false, "x: number;", some "public prop"⟩

def w8Ppriv : PropertyDecl :=
  ⟨"hidden", some "number", some Scope.private, false, "private hidden: number;", none⟩

def w8G : GetAccessorDecl :=
  ⟨"size", some "number", some Scope.public, false, "get size(): number;", none⟩

def w8M : MethodDecl :=
  ⟨"push", some "void", none, false, "push(v: number): void;", some "push doc"⟩

def w8C : ClassDecl :=
  { node := { name := "W", typeParameters := [], docComment := none, ctors := [],
              properties := [w8P, w8Ppriv], getAccessors := [w8G], methods := [w8M] },
    ancestors := [] }

theorem c8_witness :
    (∃ n ∈ classChain w8C, ∃ p ∈ n.properties,
      p.name = "x" ∧ propRecordOf p = propRecordOf w8P ∧ isPublicScope p.scope) ∧
    (∃ n ∈ classChain w8C, ∃ g ∈ n.getAccessors,
      g.name = "size" ∧ accessorRecordOf g = accessorRecordOf w8G ∧ isPublicScope g.scope) ∧
    (∃ n ∈ classChain w8C, ∃ mm ∈ n.methods,
      mm.name = "push" ∧ methodRecordOf mm = methodRecordOf w8M ∧ isPublicScope mm.scope) :=
  ⟨(c8_only_public_members w8C).1 "x" (propRecordOf w8P) (by decide),
   (c8_only_public_members w8C).2.1 "size" (accessorRecordOf w8G) (by decide),
   (c8_only_public_members w8C).2.2 "push" (methodRecordOf w8M) (by decide)⟩

/-- C3: for a class with a base-class chain, a public member name declared
in the class and also declared in an ancestor appears exactly once in the
merged map, bound to the record of the most-derived (first public matching)
declaration of the class itself: collection starts at the requested class
and walks up the chain, and an ancestor can only be inserted under a name
that is not already a key. -/
theorem c3_subclass_shadows_ancestor (c : ClassDecl) (nm : String) :
    (∀ p : PropertyDecl,
      c.node.properties.find?
          (fun q => q.name == nm && decide (isPublicScope q.scope)) = some p →
      (∃ a ∈ c.ancestors, ∃ q ∈ a.properties, q.name = nm) →
      jsLookup (getPublicProperties c []) nm = some (propRecordOf p) ∧
        ((getPublicProperties c []).map Prod.fst).count nm = 1) ∧
    (∀ g : GetAccessorDecl,
      c.node.getAccessors.find?
          (fun q => q.name == nm && decide (isPublicScope q.scope)) = some g →
      (∃ a ∈ c.ancestors, ∃ q ∈ a.getAccessors, q.name = nm) →
      jsLookup (getPublicAccessors c []) nm = some (accessorRecordOf g) ∧
        ((getPublicAccessors c []).map Prod.fst).count nm = 1) ∧
    (∀ mm : MethodDecl,
      c.node.methods.find?
          (fun q => q.name == nm && decide (isPublicScope q.scope)) = some mm →
      (∃ a ∈ c.ancestors, ∃ q ∈ a.methods, q.name = nm) →
      jsLookup (getPublicMethods c []) nm = some (methodRecordOf mm) ∧
        ((getPublicMethods c []).map Prod.fst).count nm = 1) := by
  refine ⟨?_, ?_, ?_⟩
  · intro p hp _hanc
    have hlk : jsLookup (getPublicProperties c []) nm = some (propRecordOf p) := by
      rw [getPublicProperties_eq_foldl,
        foldl_insert_lookup propertiesReduceFn PropertyDecl.name
          (fun q => isPublicScope q.scope) propRecordOf propertiesReduceFn_shape]
      simp [classChain, List.flatMap_cons, List.find?_append, hp, jsLookup_nil, Option.or]
    have hnd : ((getPublicProperties c []).map Prod.fst).Nodup := by
      rw [getPublicProperties_eq_foldl]
      exact foldl_insert_nodup_keys propertiesReduceFn PropertyDecl.name
        (fun q => isPublicScope q.scope) propRecordOf propertiesReduceFn_shape
        _ [] (by simp)
    exact ⟨hlk, List.count_eq_one_of_mem hnd (jsLookup_some_mem_keys hlk)⟩
  · intro g hg _hanc
    have hlk : jsLookup (getPublicAccessors c []) nm = some (accessorRecordOf g) := by
      rw [getPublicAccessors_eq_foldl,
        foldl_insert_lookup accessorsReduceFn GetAccessorDecl.name
          (fun q => isPublicScope q.scope) accessorRecordOf accessorsReduceFn_shape]
      simp [classChain, List.flatMap_cons, List.find?_append, hg, jsLookup_nil, Option.or]
    have hnd : ((getPublicAccessors c []).map Prod.fst).Nodup := by
      rw [getPublicAccessors_eq_foldl]
      exact foldl_insert_nodup_keys accessorsReduceFn GetAccessorDecl.name
        (fun q => isPublicScope q.scope) accessorRecordOf accessorsReduceFn_shape
        _ [] (by simp)
    exact ⟨hlk, List.count_eq_one_of_mem hnd (jsLookup_some_mem_keys hlk)⟩
  · intro mm hm _hanc
    have hlk : jsLookup (getPublicMethods c []) nm = some (methodRecordOf mm) := by
      rw [getPublicMethods_eq_foldl,
        foldl_insert_lookup methodsReduceFn MethodDecl.name
          (fun q => isPublicScope q.scope) methodRecordOf methodsReduceFn_shape]
      simp [classChain, List.flatMap_cons, List.find?_append, hm, jsLookup_nil, Option.or]
    have hnd : ((getPublicMethods c []).map Prod.fst).Nodup := by
      rw [getPublicMethods_eq_foldl]
      exact foldl_insert_nodup_keys methodsReduceFn MethodDecl.name
        (fun q => isPublicScope q.scope) methodRecordOf methodsReduceFn_shape
        _ [] (by simp)
    exact ⟨hlk, List.count_eq_one_of_mem hnd (jsLookup_some_mem_keys hlk)⟩

/-- Witness declarations for C3: a derived class and an ancestor that both
declare a property, a get-accessor and a method named `x`. -/
def w3P : PropertyDecl :=
  ⟨"x", some "number", none, false, "x: number;", some "derived prop"⟩

def w3G : GetAccessorDecl :=
  ⟨"x", some "number", some Scope.public, false, "get x(): number;", some "derived accessor"⟩

def w3M : MethodDecl :=
  ⟨"x", some "void", none, false, "x(): void;", some "derived method"⟩

def w3Base : ClassNode :=
  { name := "Base", typeParameters := [], docComment := none, ctors := [],
    properties := [⟨"x", some "string", none, false, "x: string;", none⟩],
    getAccessors := [⟨"x", some "string", none, false, "get x(): string;", none⟩],
    methods := [⟨"x", some "string", none, false, "x(): string;", none⟩] }

def w3C : ClassDecl :=
  { node := { name := "D", typeParameters := [], docComment := none, ctors := [],
              properties := [w3P], getAccessors := [w3G], methods := [w3M] },
    ancestors := [w3Base] }

theorem c3_witness :
    (jsLookup (getPublicProperties w3C []) "x" = some (propRecordOf w3P) ∧
      ((getPublicProperties w3C []).map Prod.fst).count "x" = 1) ∧
    (jsLookup (getPublicAccessors w3C []) "x" = some (accessorRecordOf w3G) ∧
      ((getPublicAccessors w3C []).map Prod.fst).count "x" = 1) ∧
    (jsLookup (getPublicMethods w3C []) "x" = some (methodRecordOf w3M) ∧
      ((getPublicMethods w3C []).map Prod.fst).count "x" = 1) :=
  ⟨(c3_subclass_shadows_ancestor w3C "x").1 w3P (by decide)
      ⟨w3Base, by decide, ⟨"x", some "string", none, false, "x: string;", none⟩, by decide, rfl⟩,
   (c3_subclass_shadows_ancestor w3C "x").2.1 w3G (by decide)
      ⟨w3Base, by decide, ⟨"x", some "string", none, false, "get x(): string;", none⟩, by decide, rfl⟩,
   (c3_subclass_shadows_ancestor w3C "x").2.2 w3M (by decide)
      ⟨w3Base, by decide, ⟨"x", some "string", none, false, "x(): string;", none⟩, by decide, rfl⟩⟩

/-- C4: for every class name present in the source tree, `getClassData` is
idempotent and memoised: the first call returns a value and a registry, the
second call on that registry returns the same value with the registry
unchanged and performs zero resolutions, and the value is exactly the stored
registry entry. -/
theorem c4_getClassData_memoised (tree : List ClassDecl) (reg : ClassesDataMap)
    (className : String) (hex : ∃ c ∈ tree, c.node.name = className) :
    ∃ (v : ClassDataMap) (reg₁ : ClassesDataMap) (n : Nat),
      getClassDataCounting tree reg className = .ok (v, reg₁, n) ∧
      getClassDataCounting tree reg₁ className = .ok (v, reg₁, 0) ∧
      jsLookup reg₁ className = some v ∧
      getClassData tree reg className = .ok (v, reg₁) ∧
      getClassData tree reg₁ className = .ok (v, reg₁) := by
  cases hreg : jsLookup reg className with
  | some v =>
    exact ⟨v, reg, 0,
      by simp [getClassDataCounting, hreg],
      by simp [getClassDataCounting, hreg],
      hreg,
      by simp [getClassData, hreg],
      by simp [getClassData, hreg]⟩
  | none =>
    have hfind : ∃ c₀, tree.find? (fun c => c.node.name == className) = some c₀ := by
      rcases hex with ⟨c, hc, hn⟩
      have hsome : (tree.find? (fun c => c.node.name == className)).isSome :=
        List.find?_isSome.mpr ⟨c, hc, by simp [hn]⟩
      exact Option.isSome_iff_exists.mp hsome
    rcases hfind with ⟨c₀, hc₀⟩
    have hname : c₀.node.name = className := by
      simpa using List.find?_some hc₀
    have hset : setClassData tree reg className =
        .ok (resolveClassData c₀, reg ++ [(c₀.node.name, resolveClassData c₀)]) := by
      simp [setClassData, hc₀]
    have hlk : jsLookup (reg ++ [(c₀.node.name, resolveClassData c₀)]) className =
        some (resolveClassData c₀) := by
      rw [jsLookup_append, hreg, jsLookup_singleton]
      simp [hname, Option.or]
    exact ⟨resolveClassData c₀, reg ++ [(c₀.node.name, resolveClassData c₀)], 1,
      by simp [getClassDataCounting, hreg, hset],
      by simp [getClassDataCounting, hlk],
      hlk,
      by simp [getClassData, hreg, hset],
      by simp [getClassData, hlk]⟩

theorem c4_witness :
    ∃ (v : ClassDataMap) (reg₁ : ClassesDataMap) (n : Nat),
      getClassDataCounting [classA] [] "A" = .ok (v, reg₁, n) ∧
      getClassDataCounting [classA] reg₁ "A" = .ok (v, reg₁, 0) ∧
      jsLookup reg₁ "A" = some v ∧
      getClassData [classA] [] "A" = .ok (v, reg₁) ∧
      getClassData [classA] reg₁ "A" = .ok (v, reg₁) :=
  c4_getClassData_memoised [classA] [] "A" ⟨classA, by decide, rfl⟩

/-- C9: for every class found in the source tree that declares no
constructor, `getClassData` succeeds (starting from the empty registry a
fresh parser holds), and both constructor-summary fields of the resolved
record are absent. -/
theorem c9_no_constructor_is_valid (tree : List ClassDecl) (className : String)
    (c : ClassDecl)
    (hfind : tree.find? (fun c => c.node.name == className) = some c)
    (hctor : c.node.ctors = []) :
    getClassData tree [] className =
      .ok (resolveClassData c, [(c.node.name, resolveClassData c)]) ∧
    (resolveClassData c).constructor.title = none ∧
    (resolveClassData c).constructor.description = none := by
  refine ⟨?_, ?_, ?_⟩
  · simp [getClassData, jsLookup_nil, setClassData, hfind]
  · simp [resolveClassData, hctor]
  · simp [resolveClassData, hctor]

theorem c9_witness :
    getClassData [classA] [] "A" =
      .ok (resolveClassData classA, [(classA.node.name, resolveClassData classA)]) ∧
    (resolveClassData classA).constructor.title = none ∧
    (resolveClassData classA).constructor.description = none :=
  c9_no_constructor_is_valid [classA] "A" classA rfl rfl

/-- C5: for a class name with no exact-name match in the source tree (and
not already cached), `getClassData` fails with the not-found error, the
error propagates out of `writeApiClassContent`, and in every case no file
write happens: the call either propagates the error or takes the
markers-not-found branch that leaves the file untouched. -/
theorem c5_class_not_found_no_write (tree : List ClassDecl) (reg : ClassesDataMap)
    (data className : String)
    (hfind : tree.find? (fun c => c.node.name == className) = none)
    (hreg : jsLookup reg className = none) :
    getClassData tree reg className = .error "className not found!" ∧
    (writeApiClassContent tree reg data className = .error "className not found!" ∨
     writeApiClassContent tree reg data className = .ok (none, reg)) := by
  have hg : getClassData tree reg className = .error "className not found!" := by
    simp [getClassData, hreg, setClassData, hfind]
  refine ⟨hg, ?_⟩
  by_cases hcond : jsIndexOf data (startCommentFor className) ≠ -1 ∧
      jsIndexOf data (endCommentFor className) + ((endCommentFor className).length : Int) ≠ -1
  · left
    simp only [writeApiClassContent]
    rw [if_pos hcond, hg]
  · right
    simp only [writeApiClassContent]
    rw [if_neg hcond]

theorem c5_witness :
    getClassData [] [] "Missing" = .error "className not found!" ∧
    (writeApiClassContent [] [] "<!-- START CLASS API: Missing --><!-- END CLASS API: Missing -->" "Missing" =
        .error "className not found!" ∨
     writeApiClassContent [] [] "<!-- START CLASS API: Missing --><!-- END CLASS API: Missing -->" "Missing" =
        .ok (none, [])) :=
  c5_class_not_found_no_write [] []
    "<!-- START CLASS API: Missing --><!-- END CLASS API: Missing -->" "Missing" rfl rfl

/-- C1 (code bug): the claim says a document whose end marker is absent is
left unwritten, and the comments in `writeApiClassContent` state the same
intent ("Check if both start and end comments are found"), but the code
compares `data.indexOf(endComment) + endComment.length` against `-1`; when
the end marker is absent that sum is `length - 1 ≥ 0`, so the guard passes
and the file *is* written — here with the spliced content plus the last
character of the document (`slice(-1)`). -/
theorem c1_end_marker_check_is_broken :
    jsIndexOf "<!-- START CLASS API: A -->x" (endCommentFor "A") = -1 ∧
    writeApiClassContent [classA] [] "<!-- START CLASS API: A -->x" "A" =
      .ok (some "<!-- START CLASS API: A -->\n### A\n\n#### Constructor\n- `undefined`: undefined\n\n\n\nx",
        [("A", resolveClassData classA)]) ∧
    ("<!-- START CLASS API: A -->\n### A\n\n#### Constructor\n- `undefined`: undefined\n\n\n\nx" : String) ≠
      "<!-- START CLASS API: A -->x" := by
  refine ⟨by decide, ?_, by decide⟩
  rfl

/-- C6: when both markers are found, the written text is the document up to
and including the first occurrence of the start marker, a newline, the
rendered fragment for the class, and the suffix of the document from the
first occurrence of the end marker on (which still starts with the end
marker). -/
theorem c6_splice_between_markers (tree : List ClassDecl) (reg : ClassesDataMap)
    (data className : String) (i j : Nat) (cd : ClassDataMap) (reg' : ClassesDataMap)
    (hi : firstInfixIdx data.data (startCommentFor className).data = some i)
    (hj : firstInfixIdx data.data (endCommentFor className).data = some j)
    (hc : getClassData tree reg className = .ok (cd, reg')) :
    writeApiClassContent tree reg data className =
      .ok (some (String.mk (data.data.take i) ++ startCommentFor className ++ "\n" ++
        getApiClassContent cd ++ String.mk (data.data.drop j)), reg') ∧
    (endCommentFor className).data.isPrefixOf (data.data.drop j) = true := by
  obtain ⟨pre, post, hs, hlen⟩ := firstInfixIdx_some _ _ _ hi
  obtain ⟨pre2, post2, hs2, hlen2⟩ := firstInfixIdx_some _ _ _ hj
  have hidx : jsIndexOf data (startCommentFor className) = (i : Int) := by
    simp [jsIndexOf, hi]
  have hjdx : jsIndexOf data (endCommentFor className) = (j : Int) := by
    simp [jsIndexOf, hj]
  constructor
  · have e1 : jsSlice data 0 ((i : Int) + ((startCommentFor className).length : Int)) =
        String.mk (data.data.take i) ++ startCommentFor className := by
      have hcast : (i : Int) + ((startCommentFor className).length : Int) =
          ((i + (startCommentFor className).length : Nat) : Int) := by
        push_cast
        ring
      rw [hcast, jsSlice_zero_nat, ← strMk_data (startCommentFor className), strMk_append]
      have hassoc : (pre ++ (startCommentFor className).data) ++ post =
          pre ++ ((startCommentFor className).data ++ post) := List.append_assoc _ _ _
      have hlen2' : (pre ++ (startCommentFor className).data).length =
          i + (startCommentFor className).length := by
        rw [List.length_append, hlen]
        rfl
      have hstep : data.data.take (i + (startCommentFor className).length) =
          data.data.take i ++ (startCommentFor className).data := by
        calc data.data.take (i + (startCommentFor className).length)
            = ((pre ++ (startCommentFor className).data) ++ post).take
                (i + (startCommentFor className).length) := by rw [← hs]
          _ = pre ++ (startCommentFor className).data := List.take_left' hlen2'
          _ = (pre ++ ((startCommentFor className).data ++ post)).take i ++
                (startCommentFor className).data := by rw [List.take_left' hlen]
          _ = data.data.take i ++ (startCommentFor className).data := by
                rw [← hassoc, ← hs]
      rw [hstep]
    have e2 : jsSliceFrom data
          (((j : Int) + ((endCommentFor className).length : Int)) -
            ((endCommentFor className).length : Int)) =
        String.mk (data.data.drop j) := by
      have harith : ((j : Int) + ((endCommentFor className).length : Int)) -
          ((endCommentFor className).length : Int) = ((j : Nat) : Int) := by
        ring
      rw [harith, jsSliceFrom_nat]
    simp only [writeApiClassContent]
    rw [hidx, hjdx, if_pos ⟨by omega, by
      have hnn : (0 : Int) ≤ ((endCommentFor className).length : Int) := by positivity
      omega⟩, hc]
    show Except.ok
        (some (jsSlice data 0 ((i : Int) + ((startCommentFor className).length : Int)) ++
          "\n" ++ getApiClassContent cd ++
          jsSliceFrom data (((j : Int) + ((endCommentFor className).length : Int)) -
            ((endCommentFor className).length : Int))), reg') = _
    rw [e1, e2]
  · have hdrop : data.data.drop j = (endCommentFor className).data ++ post2 := by
      calc data.data.drop j
          = ((pre2 ++ (endCommentFor className).data) ++ post2).drop j := by rw [← hs2]
        _ = (pre2 ++ ((endCommentFor className).data ++ post2)).drop j := by
              rw [List.append_assoc]
        _ = (endCommentFor className).data ++ post2 := List.drop_left' hlen2
    rw [hdrop]
    exact List.isPrefixOf_iff_prefix.mpr (List.prefix_append _ _)

/-- Witness document for C6: both markers present, with text between and
after them. -/
def w6Doc : String :=
  "<!-- START CLASS API: A -->mid<!-- END CLASS API: A -->tail"

theorem c6_witness :
    writeApiClassContent [classA] [] w6Doc "A" =
      .ok (some (String.mk (w6Doc.data.take 0) ++ startCommentFor "A" ++ "\n" ++
        getApiClassContent (resolveClassData classA) ++ String.mk (w6Doc.data.drop 30)),
        [("A", resolveClassData classA)]) ∧
    (endCommentFor "A").data.isPrefixOf (w6Doc.data.drop 30) = true :=
  c6_splice_between_markers [classA] [] w6Doc "A" 0 30 (resolveClassData classA)
    [("A", resolveClassData classA)] (by decide) (by decide) rfl
